import Mathlib

/-! Key-space encoding of the dex module (`x/dex/types/keys.go`)

A shallow embedding of the key builders of `keys.go` and the properties of the
key space that follow from them.

* A byte is a natural number; every byte the builders compute themselves is
  reduced modulo 256, the bytes of the inputs are carried through unchanged.
* A Go `string` is an immutable byte sequence, so it is embedded as the list of
  its bytes and the conversion `[]byte(s)` is the identity.
* `uint16` and `uint64` values are natural numbers; the conversion
  `uint16(len(denom))` is written as an explicit reduction modulo `2 ^ 16`.
* A builder that can panic (through `address.MustLengthPrefix`) returns an
  `Option`; `none` is the panic.
-/

namespace Dex

/-- A byte slice, as the list of its bytes. -/
abbrev Bytes := List Nat

/-- A Go string, as the list of its bytes. -/
abbrev GoString := List Nat

/-- The bytes of a string literal of the source. All literals of `keys.go` are
ASCII, so the bytes are the code points of the characters. -/
def strLit (s : String) : GoString := s.toList.map Char.toNat

/-! ## Constants -/

def ModuleName : GoString := strLit "dex"
def StoreKey : GoString := ModuleName
def RouterKey : GoString := ModuleName
def QuerierRoute : GoString := ModuleName
def MemStoreKey : GoString := strLit "mem_dex"

def LongBookKey : GoString := strLit "LongBook-value-"
def ShortBookKey : GoString := strLit "ShortBook-value-"
def OrderKey : GoString := strLit "order"
def AccountActiveOrdersKey : GoString := strLit "account-active-orders"
def CancelKey : GoString := strLit "cancel"
def TwapKey : GoString := strLit "TWAP-"
def PriceKey : GoString := strLit "Price-"
def SettlementEntryKey : GoString := strLit "SettlementEntry-"
def NextSettlementIDKey : GoString := strLit "NextSettlementID-"
def NextOrderIDKey : GoString := strLit "noid"
def RegisteredPairKey : GoString := strLit "rp"
def AssetListKey : GoString := strLit "AssetList-"
def MatchResultKey : GoString := strLit "MatchResult-"
def LongOrderCountKey : GoString := strLit "loc-"
def ShortOrderCountKey : GoString := strLit "soc-"
def MemOrderKey : GoString := strLit "MemOrder-"
def MemDepositKey : GoString := strLit "MemDeposit-"
def MemCancelKey : GoString := strLit "MemCancel-"

/-- The eighteen domain tag constants of the second `const` block, in the order
in which the registry of the specification lists them. -/
def tagRegistry : List GoString :=
  [LongBookKey, ShortBookKey, OrderKey, AccountActiveOrdersKey, CancelKey, TwapKey,
   PriceKey, SettlementEntryKey, NextSettlementIDKey, NextOrderIDKey, RegisteredPairKey,
   AssetListKey, MatchResultKey, LongOrderCountKey, ShortOrderCountKey, MemOrderKey,
   MemDepositKey, MemCancelKey]

/-! ## External library functions -/

/-- Modelled from the spec: `goutils.ImmutableAppend` is imported from a module
whose source is not part of `keys.go`. Section 4.4 describes it as returning a
freshly allocated buffer that holds the bytes of the base followed by the bytes
of the suffix; on values that is list concatenation. -/
def ImmutableAppend (bz tail : Bytes) : Bytes := bz ++ tail

/-- The function `binary.BigEndian.PutUint16` of the Go standard library, applied
to a fresh two-byte buffer: `b[0] = byte(v >> 8)`, `b[1] = byte(v)`. -/
def PutUint16 (v : Nat) : Bytes := [v / 2 ^ 8 % 256, v % 256]

/-- The function `binary.BigEndian.PutUint64` of the Go standard library, applied
to a fresh eight-byte buffer: `b[0] = byte(v >> 56)`, ..., `b[7] = byte(v)`. -/
def PutUint64 (v : Nat) : Bytes :=
  [v / 2 ^ 56 % 256, v / 2 ^ 48 % 256, v / 2 ^ 40 % 256, v / 2 ^ 32 % 256,
   v / 2 ^ 24 % 256, v / 2 ^ 16 % 256, v / 2 ^ 8 % 256, v % 256]

/-- The two functions of the cosmos-sdk that `AddressKeyPrefix` calls. Their
source is not part of `keys.go`, so the builders take them as a parameter.

* `AccAddressFromBech32` returns the decoded address together with a flag that
  is `true` when the returned error is not `nil`.
* `MustLengthPrefix` returns `none` when it panics. -/
structure AddressLib where
  AccAddressFromBech32 : GoString → Bytes × Bool
  MustLengthPrefix : Bytes → Option Bytes

/-- Byte-lexicographic comparison of two keys, as `bytes.Compare` of the Go
standard library computes it and as a sorted byte-keyed store orders its keys:
the first differing byte decides, and a proper prefix comes first. -/
def bytesCompare : Bytes → Bytes → Ordering
  | [], [] => Ordering.eq
  | [], _ :: _ => Ordering.lt
  | _ :: _, [] => Ordering.gt
  | x :: xs, y :: ys =>
    if x < y then Ordering.lt else if y < x then Ordering.gt else bytesCompare xs ys

/-- The key `a` sorts strictly before the key `b`. -/
def bytesLt (a b : Bytes) : Prop := bytesCompare a b = Ordering.lt

instance (a b : Bytes) : Decidable (bytesLt a b) := by
  unfold bytesLt; infer_instance

/-- The reading of the first two bytes of a key as a big-endian unsigned 16-bit
integer (`binary.BigEndian.Uint16`); `none` when the key is shorter. -/
def Uint16 : Bytes → Option Nat
  | hi :: lo :: _ => some (hi * 256 + lo)
  | _ => none

/-! ## The key builders of `keys.go` -/

def KeyPrefix (p : GoString) : Bytes := p

def AddressKeyPrefix (lib : AddressLib) (contractAddr : GoString) : Option Bytes :=
  let addr := (lib.AccAddressFromBech32 contractAddr).1
  lib.MustLengthPrefix addr

def ContractKeyPrefix (lib : AddressLib) (p : GoString) (contractAddr : GoString) :
    Option Bytes :=
  (AddressKeyPrefix lib contractAddr).map (fun ak => ImmutableAppend p ak)

def DenomPrefix (denom : GoString) : Bytes :=
  let length := denom.length % 2 ^ 16
  let bz := PutUint16 length
  ImmutableAppend bz denom

def PairPrefix (priceDenom : GoString) (assetDenom : GoString) : Bytes :=
  ImmutableAppend (DenomPrefix priceDenom) (DenomPrefix assetDenom)

def OrderBookContractPrefix (lib : AddressLib) (long : Bool) (contractAddr : GoString) :
    Option Bytes :=
  let pre := if long then KeyPrefix LongBookKey else KeyPrefix ShortBookKey
  (AddressKeyPrefix lib contractAddr).map (fun ak => ImmutableAppend pre ak)

def OrderBookPrefix (lib : AddressLib) (long : Bool) (contractAddr : GoString)
    (priceDenom : GoString) (assetDenom : GoString) : Option Bytes :=
  (OrderBookContractPrefix lib long contractAddr).map
    (fun pre => ImmutableAppend pre (PairPrefix priceDenom assetDenom))

def PriceContractPrefix (lib : AddressLib) (contractAddr : GoString) : Option Bytes :=
  (AddressKeyPrefix lib contractAddr).map (fun ak => ImmutableAppend (KeyPrefix PriceKey) ak)

def PricePrefix (lib : AddressLib) (contractAddr : GoString) (priceDenom : GoString)
    (assetDenom : GoString) : Option Bytes :=
  (PriceContractPrefix lib contractAddr).map
    (fun pre => ImmutableAppend pre (PairPrefix priceDenom assetDenom))

def RegisteredPairPrefix (lib : AddressLib) (contractAddr : GoString) : Option Bytes :=
  (AddressKeyPrefix lib contractAddr).map
    (fun ak => ImmutableAppend (KeyPrefix RegisteredPairKey) ak)

def OrderPrefix (lib : AddressLib) (contractAddr : GoString) : Option Bytes :=
  (AddressKeyPrefix lib contractAddr).map (fun ak => ImmutableAppend (KeyPrefix OrderKey) ak)

def AssetListPrefix (assetDenom : GoString) : Bytes :=
  ImmutableAppend (KeyPrefix AssetListKey) (DenomPrefix assetDenom)

def NextOrderIDPrefix (lib : AddressLib) (contractAddr : GoString) : Option Bytes :=
  (AddressKeyPrefix lib contractAddr).map
    (fun ak => ImmutableAppend (KeyPrefix NextOrderIDKey) ak)

def MatchResultPrefix (lib : AddressLib) (contractAddr : GoString) : Option Bytes :=
  (AddressKeyPrefix lib contractAddr).map
    (fun ak => ImmutableAppend (KeyPrefix MatchResultKey) ak)

def GetSettlementOrderIDPrefix (orderID : Nat) (account : GoString) : Bytes :=
  let accountBytes := ImmutableAppend account (strLit "|")
  let orderIDBytes := PutUint64 orderID
  ImmutableAppend accountBytes orderIDBytes

def GetSettlementKey (orderID : Nat) (account : GoString) (settlementID : Nat) : Bytes :=
  let settlementIDBytes := PutUint64 settlementID
  ImmutableAppend (GetSettlementOrderIDPrefix orderID account) settlementIDBytes

def MemOrderPrefixForPair (lib : AddressLib) (contractAddr : GoString)
    (priceDenom : GoString) (assetDenom : GoString) : Option Bytes :=
  ((AddressKeyPrefix lib contractAddr).map
      (fun ak => ImmutableAppend (KeyPrefix MemOrderKey) ak)).map
    (fun pre => ImmutableAppend pre (PairPrefix priceDenom assetDenom))

def MemCancelPrefixForPair (lib : AddressLib) (contractAddr : GoString)
    (priceDenom : GoString) (assetDenom : GoString) : Option Bytes :=
  ((AddressKeyPrefix lib contractAddr).map
      (fun ak => ImmutableAppend (KeyPrefix MemCancelKey) ak)).map
    (fun pre => ImmutableAppend pre (PairPrefix priceDenom assetDenom))

def MemOrderPrefix (lib : AddressLib) (contractAddr : GoString) : Option Bytes :=
  (AddressKeyPrefix lib contractAddr).map
    (fun ak => ImmutableAppend (KeyPrefix MemOrderKey) ak)

def MemCancelPrefix (lib : AddressLib) (contractAddr : GoString) : Option Bytes :=
  (AddressKeyPrefix lib contractAddr).map
    (fun ak => ImmutableAppend (KeyPrefix MemCancelKey) ak)

def MemDepositPrefix (lib : AddressLib) (contractAddr : GoString) : Option Bytes :=
  (AddressKeyPrefix lib contractAddr).map
    (fun ak => ImmutableAppend (KeyPrefix MemDepositKey) ak)

def MemDepositSubprefix (creator denom : GoString) : Bytes :=
  ImmutableAppend creator (DenomPrefix denom)

def ContractKey (lib : AddressLib) (contractAddr : GoString) : Option Bytes :=
  AddressKeyPrefix lib contractAddr

def OrderCountPrefix (lib : AddressLib) (contractAddr : GoString) (priceDenom : GoString)
    (assetDenom : GoString) (long : Bool) : Option Bytes :=
  let pre := if long then KeyPrefix LongOrderCountKey else KeyPrefix ShortOrderCountKey
  (AddressKeyPrefix lib contractAddr).map
    (fun ak => ImmutableAppend pre (ImmutableAppend ak (PairPrefix priceDenom assetDenom)))

/-! ## A concrete address library

The length prefix of the cosmos-sdk (`types/address/store_key.go`) and a decoder
that accepts every string as its own address; they serve as a concrete instance
at which the statements below are evaluated. -/

/-- The constant `address.MaxAddrLen` of the cosmos-sdk. -/
def MaxAddrLen : Nat := 255

/-- The function `address.MustLengthPrefix` of the cosmos-sdk: the empty address
is returned as it is, an address longer than `MaxAddrLen` panics, any other
address is preceded by one byte holding its length. -/
def sdkMustLengthPrefix (bz : Bytes) : Option Bytes :=
  let bzLen := bz.length
  if bzLen = 0 then some bz
  else if bzLen > MaxAddrLen then none
  else some ([bzLen % 256] ++ bz)

/-- An address library whose decoder returns the bytes of the string without an
error. -/
def rawLib : AddressLib where
  AccAddressFromBech32 := fun s => (s, false)
  MustLengthPrefix := sdkMustLengthPrefix

/-- An address library whose decoder rejects every string the way the decoder of
the cosmos-sdk rejects a malformed one: it returns the nil address together with
an error. -/
def rejectingLib : AddressLib where
  AccAddressFromBech32 := fun _ => ([], true)
  MustLengthPrefix := sdkMustLengthPrefix

/-! ## Buffers with a backing array

The concatenation primitive is described in terms of backing storage and spare
capacity, so its description is also embedded over an explicit heap. -/

/-- A heap: the backing arrays that have been allocated, in the order of their
allocation. The length of a backing array is its capacity. -/
abbrev Heap := List (List Nat)

/-- A byte slice as Go represents it: a backing array, the offset of the first
byte in it and the number of bytes. Whatever the backing array holds beyond
`off + len` is the spare capacity of the slice. -/
structure Slice where
  arr : Nat
  off : Nat
  len : Nat
deriving DecidableEq

/-- The bytes that a slice holds in a heap. -/
def Slice.read (h : Heap) (s : Slice) : Bytes :=
  ((h.getD s.arr []).drop s.off).take s.len

/-- The slice points to a backing array that has been allocated. -/
def Slice.valid (h : Heap) (s : Slice) : Prop := s.arr < h.length

instance (h : Heap) (s : Slice) : Decidable (s.valid h) := by
  unfold Slice.valid; infer_instance

/-- Modelled from the spec: `goutils.ImmutableAppend` is imported from a module
whose source is not part of `keys.go`. Section 4.4 describes `Concat(base,
suffix)` as returning a freshly allocated buffer containing the bytes of the
base followed by the bytes of the suffix, never writing into or growing the
backing storage of the base or the suffix. The result is the new heap and the
slice that covers the new backing array. -/
def Concat (h : Heap) (base suffix : Slice) : Heap × Slice :=
  let res := base.read h ++ suffix.read h
  (h ++ [res], { arr := h.length, off := 0, len := res.length })

/-- A heap with three backing arrays: one of capacity four and two of capacity
one. -/
def sampleHeap : Heap := [[1, 2, 0, 0], [7], [9]]

/-- The first two bytes of the first backing array of `sampleHeap`; two bytes of
its capacity are spare. -/
def sampleBase : Slice := { arr := 0, off := 0, len := 2 }

/-- The second backing array of `sampleHeap`. -/
def sampleX : Slice := { arr := 1, off := 0, len := 1 }

/-- The third backing array of `sampleHeap`. -/
def sampleY : Slice := { arr := 2, off := 0, len := 1 }

/-! ## Auxiliary definitions for the statements -/

/-- The number that a byte string denotes when it is read as a big-endian
numeral in base 256. -/
def beValue : Bytes → Nat
  | [] => 0
  | d :: ds => d * 256 ^ ds.length + beValue ds

/-- A call of one of the builders of `keys.go` whose key leads with a tag
constant, together with the arguments of the call. `ContractKeyPrefix` takes its
leading string from the caller and `GetSettlementOrderIDPrefix`,
`GetSettlementKey`, `MemDepositSubprefix` and `ContractKey` lead with no tag, so
they are not among the constructors. -/
inductive TaggedCall where
  | orderBookPrefix (long : Bool) (contractAddr priceDenom assetDenom : GoString)
  | orderBookContractPrefix (long : Bool) (contractAddr : GoString)
  | pricePrefix (contractAddr priceDenom assetDenom : GoString)
  | priceContractPrefix (contractAddr : GoString)
  | registeredPairPrefix (contractAddr : GoString)
  | orderPrefix (contractAddr : GoString)
  | assetListPrefix (assetDenom : GoString)
  | nextOrderIDPrefix (contractAddr : GoString)
  | matchResultPrefix (contractAddr : GoString)
  | memOrderPrefixForPair (contractAddr priceDenom assetDenom : GoString)
  | memCancelPrefixForPair (contractAddr priceDenom assetDenom : GoString)
  | memOrderPrefix (contractAddr : GoString)
  | memCancelPrefix (contractAddr : GoString)
  | memDepositPrefix (contractAddr : GoString)
  | orderCountPrefix (contractAddr priceDenom assetDenom : GoString) (long : Bool)

/-- The key that the call returns; `none` when the call panics. -/
def TaggedCall.key (lib : AddressLib) : TaggedCall → Option Bytes
  | .orderBookPrefix long c p a => OrderBookPrefix lib long c p a
  | .orderBookContractPrefix long c => OrderBookContractPrefix lib long c
  | .pricePrefix c p a => PricePrefix lib c p a
  | .priceContractPrefix c => PriceContractPrefix lib c
  | .registeredPairPrefix c => RegisteredPairPrefix lib c
  | .orderPrefix c => OrderPrefix lib c
  | .assetListPrefix d => some (AssetListPrefix d)
  | .nextOrderIDPrefix c => NextOrderIDPrefix lib c
  | .matchResultPrefix c => MatchResultPrefix lib c
  | .memOrderPrefixForPair c p a => MemOrderPrefixForPair lib c p a
  | .memCancelPrefixForPair c p a => MemCancelPrefixForPair lib c p a
  | .memOrderPrefix c => MemOrderPrefix lib c
  | .memCancelPrefix c => MemCancelPrefix lib c
  | .memDepositPrefix c => MemDepositPrefix lib c
  | .orderCountPrefix c p a long => OrderCountPrefix lib c p a long

/-- The tag constant that the body of the called builder passes to `KeyPrefix`. -/
def TaggedCall.tag : TaggedCall → GoString
  | .orderBookPrefix long _ _ _ => if long then LongBookKey else ShortBookKey
  | .orderBookContractPrefix long _ => if long then LongBookKey else ShortBookKey
  | .pricePrefix _ _ _ => PriceKey
  | .priceContractPrefix _ => PriceKey
  | .registeredPairPrefix _ => RegisteredPairKey
  | .orderPrefix _ => OrderKey
  | .assetListPrefix _ => AssetListKey
  | .nextOrderIDPrefix _ => NextOrderIDKey
  | .matchResultPrefix _ => MatchResultKey
  | .memOrderPrefixForPair _ _ _ => MemOrderKey
  | .memCancelPrefixForPair _ _ _ => MemCancelKey
  | .memOrderPrefix _ => MemOrderKey
  | .memCancelPrefix _ => MemCancelKey
  | .memDepositPrefix _ => MemDepositKey
  | .orderCountPrefix _ _ _ long => if long then LongOrderCountKey else ShortOrderCountKey

/-! ## Theorems -/

/-! ### The tag registry -/

theorem tagRegistry_no_leading_tag :
    ∀ s ∈ tagRegistry, ∀ t ∈ tagRegistry, s ≠ t → ¬ s <+: t := by
  decide

theorem TaggedCall.tag_mem (b : TaggedCall) : b.tag ∈ tagRegistry := by
  cases b <;> simp only [TaggedCall.tag] <;> (try split) <;> simp [tagRegistry]

theorem TaggedCall.key_eq_tag_append (lib : AddressLib) (b : TaggedCall) (k : Bytes)
    (hk : b.key lib = some k) : ∃ r, k = b.tag ++ r := by
  cases b with
  | assetListPrefix d =>
    simp only [TaggedCall.key, Option.some.injEq] at hk
    exact ⟨DenomPrefix d, hk.symm⟩
  | orderBookPrefix long c p a =>
    simp only [TaggedCall.key, OrderBookPrefix, OrderBookContractPrefix, Option.map_map,
      Option.map_eq_some'] at hk
    obtain ⟨ak, _, rfl⟩ := hk
    exact ⟨ak ++ PairPrefix p a, by cases long <;> simp [TaggedCall.tag, ImmutableAppend, KeyPrefix]⟩
  | orderBookContractPrefix long c =>
    simp only [TaggedCall.key, OrderBookContractPrefix, Option.map_eq_some'] at hk
    obtain ⟨ak, _, rfl⟩ := hk
    exact ⟨ak, by cases long <;> simp [TaggedCall.tag, ImmutableAppend, KeyPrefix]⟩
  | orderCountPrefix c p a long =>
    simp only [TaggedCall.key, OrderCountPrefix, Option.map_eq_some'] at hk
    obtain ⟨ak, _, rfl⟩ := hk
    exact ⟨ak ++ PairPrefix p a, by cases long <;> simp [TaggedCall.tag, ImmutableAppend, KeyPrefix]⟩
  | pricePrefix c p a =>
    simp only [TaggedCall.key, PricePrefix, PriceContractPrefix, Option.map_map,
      Option.map_eq_some'] at hk
    obtain ⟨ak, _, rfl⟩ := hk
    exact ⟨ak ++ PairPrefix p a, by simp [TaggedCall.tag, ImmutableAppend, KeyPrefix]⟩
  | memOrderPrefixForPair c p a =>
    simp only [TaggedCall.key, MemOrderPrefixForPair, Option.map_map,
      Option.map_eq_some'] at hk
    obtain ⟨ak, _, rfl⟩ := hk
    exact ⟨ak ++ PairPrefix p a, by simp [TaggedCall.tag, ImmutableAppend, KeyPrefix]⟩
  | memCancelPrefixForPair c p a =>
    simp only [TaggedCall.key, MemCancelPrefixForPair, Option.map_map,
      Option.map_eq_some'] at hk
    obtain ⟨ak, _, rfl⟩ := hk
    exact ⟨ak ++ PairPrefix p a, by simp [TaggedCall.tag, ImmutableAppend, KeyPrefix]⟩
  | priceContractPrefix c =>
    simp only [TaggedCall.key, PriceContractPrefix, Option.map_eq_some'] at hk
    obtain ⟨ak, _, rfl⟩ := hk
    exact ⟨ak, rfl⟩
  | registeredPairPrefix c =>
    simp only [TaggedCall.key, RegisteredPairPrefix, Option.map_eq_some'] at hk
    obtain ⟨ak, _, rfl⟩ := hk
    exact ⟨ak, rfl⟩
  | orderPrefix c =>
    simp only [TaggedCall.key, OrderPrefix, Option.map_eq_some'] at hk
    obtain ⟨ak, _, rfl⟩ := hk
    exact ⟨ak, rfl⟩
  | nextOrderIDPrefix c =>
    simp only [TaggedCall.key, NextOrderIDPrefix, Option.map_eq_some'] at hk
    obtain ⟨ak, _, rfl⟩ := hk
    exact ⟨ak, rfl⟩
  | matchResultPrefix c =>
    simp only [TaggedCall.key, MatchResultPrefix, Option.map_eq_some'] at hk
    obtain ⟨ak, _, rfl⟩ := hk
    exact ⟨ak, rfl⟩
  | memOrderPrefix c =>
    simp only [TaggedCall.key, MemOrderPrefix, Option.map_eq_some'] at hk
    obtain ⟨ak, _, rfl⟩ := hk
    exact ⟨ak, rfl⟩
  | memCancelPrefix c =>
    simp only [TaggedCall.key, MemCancelPrefix, Option.map_eq_some'] at hk
    obtain ⟨ak, _, rfl⟩ := hk
    exact ⟨ak, rfl⟩
  | memDepositPrefix c =>
    simp only [TaggedCall.key, MemDepositPrefix, Option.map_eq_some'] at hk
    obtain ⟨ak, _, rfl⟩ := hk
    exact ⟨ak, rfl⟩

theorem not_prefix_of_tags (s t x y : Bytes) (hst : ¬ s <+: t) (hts : ¬ t <+: s) :
    ¬ (s ++ x) <+: (t ++ y) := by
  intro h
  have h1 : s <+: t ++ y := (List.prefix_append s x).trans h
  have h2 : t <+: t ++ y := List.prefix_append t y
  rcases List.prefix_or_prefix_of_prefix h1 h2 with h3 | h3
  · exact hst h3
  · exact hts h3

/-- C1: any two distinct tag constants of the registry are different byte
strings, and neither of the two is a byte-prefix of the other. -/
theorem tagRegistry_pairwise_prefix_free :
    tagRegistry.Pairwise (fun s t => s ≠ t ∧ ¬ s <+: t ∧ ¬ t <+: s) := by
  decide

/-- C2, as the code has it: two calls of builders that lead with different tag
constants never return keys of which one is a byte-prefix of the other. -/
theorem tagged_keys_prefix_free (lib : AddressLib) (b1 b2 : TaggedCall) (k1 k2 : Bytes)
    (htag : b1.tag ≠ b2.tag) (h1 : b1.key lib = some k1) (h2 : b2.key lib = some k2) :
    ¬ k1 <+: k2 ∧ ¬ k2 <+: k1 := by
  obtain ⟨r1, rfl⟩ := TaggedCall.key_eq_tag_append lib b1 k1 h1
  obtain ⟨r2, rfl⟩ := TaggedCall.key_eq_tag_append lib b2 k2 h2
  have h12 := tagRegistry_no_leading_tag _ b1.tag_mem _ b2.tag_mem htag
  have h21 := tagRegistry_no_leading_tag _ b2.tag_mem _ b1.tag_mem (Ne.symm htag)
  exact ⟨not_prefix_of_tags _ _ _ _ h12 h21, not_prefix_of_tags _ _ _ _ h21 h12⟩

/-- Witness of C2: `OrderPrefix` and `AssetListPrefix` at the address `c1` and the
denomination `usei`. -/
theorem tagged_keys_prefix_free_witness :
    ¬ (strLit "order" ++ [2, 99, 49]) <+: AssetListPrefix (strLit "usei") ∧
    ¬ AssetListPrefix (strLit "usei") <+: (strLit "order" ++ [2, 99, 49]) :=
  tagged_keys_prefix_free rawLib (TaggedCall.orderPrefix (strLit "c1"))
    (TaggedCall.assetListPrefix (strLit "usei")) _ _ (by decide) (by decide) (by decide)

/-- Counterexample to C2: `MemDepositSubprefix` leads with the creator and not
with a tag, so for the creator `AssetList-` it returns the very key that
`AssetListPrefix` returns for the same denomination. -/
theorem untagged_key_is_tagged_key :
    AssetListPrefix (strLit "usei") = MemDepositSubprefix (strLit "AssetList-") (strLit "usei") ∧
    AssetListPrefix (strLit "usei") <+:
      MemDepositSubprefix (strLit "AssetList-") (strLit "usei") := by
  decide

/-! ### Denominations and pairs -/

theorem DenomPrefix_eq (s : GoString) :
    DenomPrefix s = (s.length % 2 ^ 16 / 2 ^ 8 % 256) :: (s.length % 2 ^ 16 % 256) :: s := rfl

theorem DenomPrefix_tail_inj (s t : GoString) (h : DenomPrefix s = DenomPrefix t) : s = t := by
  rw [DenomPrefix_eq, DenomPrefix_eq] at h
  injection h with _ h
  injection h

theorem DenomPrefix_append_inj (s t : GoString) (x y : Bytes) (hs : s.length ≤ 65535)
    (ht : t.length ≤ 65535) (h : DenomPrefix s ++ x = DenomPrefix t ++ y) :
    s = t ∧ x = y := by
  rw [DenomPrefix_eq, DenomPrefix_eq] at h
  simp only [List.cons_append] at h
  injection h with h1 h
  injection h with h2 h
  have hlen : s.length = t.length := by omega
  exact List.append_inj h hlen

theorem PairPrefix_inj_of_bounded (p1 a1 p2 a2 : GoString) (h1 : p1.length ≤ 65535)
    (h2 : p2.length ≤ 65535) (h : PairPrefix p1 a1 = PairPrefix p2 a2) :
    p1 = p2 ∧ a1 = a2 := by
  obtain ⟨hp, ha⟩ := DenomPrefix_append_inj p1 p2 _ _ h1 h2 h
  exact ⟨hp, DenomPrefix_tail_inj a1 a2 ha⟩

theorem replicate_zero_append (n : Nat) (x : Bytes) :
    List.replicate n 0 ++ 0 :: 0 :: x = 0 :: 0 :: (List.replicate n 0 ++ x) := by
  induction n with
  | zero => rfl
  | succ n ih => simp [List.replicate_succ, ih]

theorem DenomPrefix_replicate (n : Nat) (h : n % 65536 = 0) :
    DenomPrefix (List.replicate n 0) = 0 :: 0 :: List.replicate n 0 := by
  rw [DenomPrefix_eq]
  simp [h]

theorem PairPrefix_swap_replicate (n : Nat) (h : n % 65536 = 0) :
    PairPrefix [] (List.replicate n 0) = PairPrefix (List.replicate n 0) [] := by
  unfold PairPrefix ImmutableAppend
  rw [DenomPrefix_replicate n h]
  show 0 :: 0 :: 0 :: 0 :: List.replicate n 0 = 0 :: 0 :: (List.replicate n 0 ++ [0, 0])
  rw [replicate_zero_append]
  simp

theorem nil_ne_replicate : ([] : GoString) ≠ List.replicate 65536 0 := by
  intro h
  have hlen := congrArg List.length h
  rw [List.length_replicate] at hlen
  exact absurd hlen (by decide)

/-- C3: for a string of at most 65535 bytes, `DenomPrefix` returns two more
bytes than the string has, the first two bytes read big-endian are the length of
the string, and the bytes after them are the string; for `usei` the key is
`0x00 0x04` followed by the four ASCII bytes, six bytes in total. -/
theorem DenomPrefix_roundtrip (s : GoString) (h : s.length ≤ 65535) :
    (DenomPrefix s).length = s.length + 2 ∧
    Uint16 (DenomPrefix s) = some s.length ∧
    ((DenomPrefix s).drop 2).take s.length = s ∧
    DenomPrefix (strLit "usei") = [0x00, 0x04] ++ strLit "usei" ∧
    (DenomPrefix (strLit "usei")).length = 6 := by
  refine ⟨?_, ?_, ?_, by decide, by decide⟩
  · simp [DenomPrefix_eq]
  · rw [DenomPrefix_eq]
    simp only [Uint16]
    congr 1
    omega
  · simp [DenomPrefix_eq]

/-- Witness of C3: the denomination `uatom`. -/
theorem DenomPrefix_roundtrip_witness :
    (DenomPrefix (strLit "uatom")).length = (strLit "uatom").length + 2 ∧
    Uint16 (DenomPrefix (strLit "uatom")) = some (strLit "uatom").length ∧
    ((DenomPrefix (strLit "uatom")).drop 2).take (strLit "uatom").length = strLit "uatom" ∧
    DenomPrefix (strLit "usei") = [0x00, 0x04] ++ strLit "usei" ∧
    (DenomPrefix (strLit "usei")).length = 6 :=
  DenomPrefix_roundtrip (strLit "uatom") (by decide)

/-- C4, as the code has it: for a string of more than 65535 bytes `DenomPrefix`
still returns a key, made of a length field that holds the length modulo 65536,
which differs from the length, followed by all bytes of the string. -/
theorem DenomPrefix_wraps (s : GoString) (h : 65535 < s.length) :
    (DenomPrefix s).length = s.length + 2 ∧
    Uint16 (DenomPrefix s) = some (s.length % 65536) ∧
    s.length % 65536 ≠ s.length ∧
    (DenomPrefix s).drop 2 = s := by
  refine ⟨?_, ?_, ?_, ?_⟩
  · simp [DenomPrefix_eq]
  · rw [DenomPrefix_eq]
    simp only [Uint16]
    congr 1
    omega
  · omega
  · simp [DenomPrefix_eq]

/-- Witness of C4: the string of 65536 zero bytes. -/
theorem DenomPrefix_wraps_witness :
    (DenomPrefix (List.replicate 65536 0)).length = (List.replicate 65536 0).length + 2 ∧
    Uint16 (DenomPrefix (List.replicate 65536 0)) =
      some ((List.replicate 65536 0).length % 65536) ∧
    (List.replicate 65536 0).length % 65536 ≠ (List.replicate 65536 0).length ∧
    (DenomPrefix (List.replicate 65536 0)).drop 2 = List.replicate 65536 0 :=
  DenomPrefix_wraps (List.replicate 65536 0) (by rw [List.length_replicate]; decide)

/-- Counterexample to C4: for the string of 65536 zero bytes `DenomPrefix`
returns a key, and the length field of that key reads 0. -/
theorem DenomPrefix_oversized_returns :
    (List.replicate 65536 0).length = 65536 ∧
    DenomPrefix (List.replicate 65536 0) = 0 :: 0 :: List.replicate 65536 0 ∧
    Uint16 (DenomPrefix (List.replicate 65536 0)) = some 0 :=
  ⟨List.length_replicate _ _, DenomPrefix_replicate 65536 (by decide),
    by rw [DenomPrefix_replicate 65536 (by decide)]; rfl⟩

/-- C5, as the code has it: for two different denominations of at most 65535
bytes each, the pair key depends on the order of the two. -/
theorem PairPrefix_swap_ne (priceDenom assetDenom : GoString)
    (hp : priceDenom.length ≤ 65535) (ha : assetDenom.length ≤ 65535)
    (hne : priceDenom ≠ assetDenom) :
    PairPrefix priceDenom assetDenom ≠ PairPrefix assetDenom priceDenom := by
  intro h
  exact hne (PairPrefix_inj_of_bounded _ _ _ _ hp ha h).1

/-- Witness of C5: the pair of `usei` and `uatom`. -/
theorem PairPrefix_swap_ne_witness :
    PairPrefix (strLit "usei") (strLit "uatom") ≠ PairPrefix (strLit "uatom") (strLit "usei") :=
  PairPrefix_swap_ne (strLit "usei") (strLit "uatom") (by decide) (by decide) (by decide)

/-- Counterexample to C5: the empty denomination and the denomination of 65536
zero bytes are different, and the pair key is the same in both orders. -/
theorem PairPrefix_swap_collision :
    ([] : GoString) ≠ List.replicate 65536 0 ∧
    PairPrefix [] (List.replicate 65536 0) = PairPrefix (List.replicate 65536 0) [] :=
  ⟨nil_ne_replicate, PairPrefix_swap_replicate 65536 (by decide)⟩

/-- C6: on denominations of at most 65535 bytes `PairPrefix` is injective. -/
theorem PairPrefix_injective (p1 a1 p2 a2 : GoString) (hp1 : p1.length ≤ 65535)
    (_ha1 : a1.length ≤ 65535) (hp2 : p2.length ≤ 65535) (_ha2 : a2.length ≤ 65535)
    (h : PairPrefix p1 a1 = PairPrefix p2 a2) : p1 = p2 ∧ a1 = a2 :=
  PairPrefix_inj_of_bounded p1 a1 p2 a2 hp1 hp2 h

/-- Witness of C6: the pair of `usei` and `uatom`, twice. -/
theorem PairPrefix_injective_witness :
    strLit "usei" = strLit "usei" ∧ strLit "uatom" = strLit "uatom" :=
  PairPrefix_injective (strLit "usei") (strLit "uatom") (strLit "usei") (strLit "uatom")
    (by decide) (by decide) (by decide) (by decide) (by decide)

/-- C7, as the code has it: when neither creator is a proper byte-prefix of the
other (as for creators of equal length), equal keys of `MemDepositSubprefix`
come from equal creators and equal denominations. -/
theorem MemDepositSubprefix_injective (c1 c2 d1 d2 : GoString)
    (h12 : c1 <+: c2 → c1 = c2) (h21 : c2 <+: c1 → c1 = c2)
    (_hd1 : d1.length ≤ 65535) (_hd2 : d2.length ≤ 65535)
    (h : MemDepositSubprefix c1 d1 = MemDepositSubprefix c2 d2) : c1 = c2 ∧ d1 = d2 := by
  unfold MemDepositSubprefix ImmutableAppend at h
  have hp1 : c1 <+: c2 ++ DenomPrefix d2 := h ▸ List.prefix_append c1 (DenomPrefix d1)
  have hp2 : c2 <+: c2 ++ DenomPrefix d2 := List.prefix_append c2 (DenomPrefix d2)
  have hc : c1 = c2 := by
    rcases List.prefix_or_prefix_of_prefix hp1 hp2 with h3 | h3
    · exact h12 h3
    · exact h21 h3
  subst hc
  exact ⟨rfl, DenomPrefix_tail_inj d1 d2 (List.append_cancel_left h)⟩

/-- Witness of C7: the creators `ab` and `ab` with the denomination `usei`. -/
theorem MemDepositSubprefix_injective_witness :
    strLit "ab" = strLit "ab" ∧ strLit "usei" = strLit "usei" :=
  MemDepositSubprefix_injective (strLit "ab") (strLit "ab") (strLit "usei") (strLit "usei")
    (fun _ => rfl) (fun _ => rfl) (by decide) (by decide) (by decide)

/-- Counterexample to C7: the empty creator with the denomination `0x00 0x00`
and the creator `0x00 0x02` with the empty denomination have the same key. -/
theorem MemDepositSubprefix_collision :
    ([0, 0] : GoString).length ≤ 65535 ∧ ([] : GoString).length ≤ 65535 ∧
    MemDepositSubprefix [] [0, 0] = MemDepositSubprefix [0, 2] [] ∧
    ¬ (([] : GoString) = [0, 2] ∧ ([0, 0] : GoString) = []) := by
  decide

/-! ### The two sides of an order book -/

/-- C8: whenever the address of the contract is encoded, `OrderBookPrefix`
returns a key for either side, the two keys are different, and neither of them
is a byte-prefix of the other. -/
theorem OrderBookPrefix_sides_disjoint (lib : AddressLib)
    (contractAddr priceDenom assetDenom : GoString) (ak : Bytes)
    (hak : AddressKeyPrefix lib contractAddr = some ak) :
    ∃ kl ks, OrderBookPrefix lib true contractAddr priceDenom assetDenom = some kl ∧
      OrderBookPrefix lib false contractAddr priceDenom assetDenom = some ks ∧
      kl ≠ ks ∧ ¬ kl <+: ks ∧ ¬ ks <+: kl := by
  have hl : ¬ LongBookKey <+: ShortBookKey := by decide
  have hs : ¬ ShortBookKey <+: LongBookKey := by decide
  have h1 := not_prefix_of_tags LongBookKey ShortBookKey (ak ++ PairPrefix priceDenom assetDenom)
    (ak ++ PairPrefix priceDenom assetDenom) hl hs
  have h2 := not_prefix_of_tags ShortBookKey LongBookKey (ak ++ PairPrefix priceDenom assetDenom)
    (ak ++ PairPrefix priceDenom assetDenom) hs hl
  refine ⟨LongBookKey ++ (ak ++ PairPrefix priceDenom assetDenom),
    ShortBookKey ++ (ak ++ PairPrefix priceDenom assetDenom), ?_, ?_, ?_, h1, h2⟩
  · simp [OrderBookPrefix, OrderBookContractPrefix, hak, ImmutableAppend, KeyPrefix]
  · simp [OrderBookPrefix, OrderBookContractPrefix, hak, ImmutableAppend, KeyPrefix]
  · intro h
    exact h1 (h ▸ List.prefix_refl _)

/-- Witness of C8: the contract `c1` and the pair of `usei` and `uatom`. -/
theorem OrderBookPrefix_sides_disjoint_witness :
    ∃ kl ks, OrderBookPrefix rawLib true (strLit "c1") (strLit "usei") (strLit "uatom") = some kl ∧
      OrderBookPrefix rawLib false (strLit "c1") (strLit "usei") (strLit "uatom") = some ks ∧
      kl ≠ ks ∧ ¬ kl <+: ks ∧ ¬ ks <+: kl :=
  OrderBookPrefix_sides_disjoint rawLib (strLit "c1") (strLit "usei") (strLit "uatom")
    [2, 99, 49] (by decide)

/-! ### Byte order of settlement keys -/

theorem bytesCompare_cons (x y : Nat) (xs ys : Bytes) :
    bytesCompare (x :: xs) (y :: ys) =
      if x < y then Ordering.lt else if y < x then Ordering.gt else bytesCompare xs ys := rfl

theorem bytesCompare_self (x : Bytes) : bytesCompare x x = Ordering.eq := by
  induction x with
  | nil => rfl
  | cons d ds ih =>
    rw [bytesCompare_cons, if_neg (Nat.lt_irrefl d), if_neg (Nat.lt_irrefl d), ih]

theorem bytesCompare_append_left (p x y : Bytes) :
    bytesCompare (p ++ x) (p ++ y) = bytesCompare x y := by
  induction p with
  | nil => rfl
  | cons d ds ih =>
    rw [List.cons_append, List.cons_append, bytesCompare_cons, if_neg (Nat.lt_irrefl d),
      if_neg (Nat.lt_irrefl d), ih]

theorem bytesCompare_append_of_length_eq (x1 : Bytes) :
    ∀ (x2 y1 y2 : Bytes), x1.length = x2.length →
      bytesCompare (x1 ++ y1) (x2 ++ y2) = (bytesCompare x1 x2).then (bytesCompare y1 y2) := by
  induction x1 with
  | nil =>
    intro x2 y1 y2 hlen
    cases x2 with
    | nil => rfl
    | cons e es => simp at hlen
  | cons d ds ih =>
    intro x2 y1 y2 hlen
    cases x2 with
    | nil => simp at hlen
    | cons e es =>
      have hlen2 : ds.length = es.length := by simpa using hlen
      rw [List.cons_append, List.cons_append, bytesCompare_cons, bytesCompare_cons]
      by_cases h1 : d < e
      · rw [if_pos h1, if_pos h1]; rfl
      · rw [if_neg h1, if_neg h1]
        by_cases h2 : e < d
        · rw [if_pos h2, if_pos h2]; rfl
        · rw [if_neg h2, if_neg h2]
          exact ih es y1 y2 hlen2

theorem bytesCompare_append_of_incomparable (a1 : Bytes) :
    ∀ (a2 x y : Bytes), ¬ a1 <+: a2 → ¬ a2 <+: a1 →
      bytesCompare (a1 ++ x) (a2 ++ y) = bytesCompare a1 a2 := by
  induction a1 with
  | nil =>
    intro a2 x y h12 _
    exact absurd List.nil_prefix h12
  | cons d ds ih =>
    intro a2 x y h12 h21
    cases a2 with
    | nil => exact absurd List.nil_prefix h21
    | cons e es =>
      rw [List.cons_append, List.cons_append, bytesCompare_cons, bytesCompare_cons]
      by_cases h1 : d < e
      · rw [if_pos h1, if_pos h1]
      · rw [if_neg h1, if_neg h1]
        by_cases h2 : e < d
        · rw [if_pos h2, if_pos h2]
        · rw [if_neg h2, if_neg h2]
          have hde : d = e := by omega
          subst hde
          refine ih es x y (fun h => h12 ?_) (fun h => h21 ?_)
          · exact List.cons_prefix_cons.2 ⟨rfl, h⟩
          · exact List.cons_prefix_cons.2 ⟨rfl, h⟩

theorem beValue_lt (l : Bytes) (hl : ∀ d ∈ l, d < 256) : beValue l < 256 ^ l.length := by
  induction l with
  | nil => simp [beValue]
  | cons d ds ih =>
    have hd : d < 256 := hl d (List.mem_cons_self _ _)
    have hds := ih (fun e he => hl e (List.mem_cons_of_mem _ he))
    have hmul : d * 256 ^ ds.length + 256 ^ ds.length ≤ 256 * 256 ^ ds.length := by
      have hle := Nat.mul_le_mul_right (256 ^ ds.length) (Nat.succ_le_of_lt hd)
      rw [Nat.succ_mul] at hle
      exact hle
    simp only [beValue, List.length_cons, pow_succ]
    omega

theorem bytesCompare_eq_compare_beValue (x : Bytes) :
    ∀ y : Bytes, x.length = y.length → (∀ d ∈ x, d < 256) → (∀ d ∈ y, d < 256) →
      bytesCompare x y = compare (beValue x) (beValue y) := by
  induction x with
  | nil =>
    intro y hlen _ _
    cases y with
    | nil => rfl
    | cons e es => simp at hlen
  | cons d ds ih =>
    intro y hlen hx hy
    cases y with
    | nil => simp at hlen
    | cons e es =>
      have hlen2 : ds.length = es.length := by simpa using hlen
      have hvx := beValue_lt ds (fun t ht => hx t (List.mem_cons_of_mem _ ht))
      have hvy := beValue_lt es (fun t ht => hy t (List.mem_cons_of_mem _ ht))
      have hrec := ih es hlen2 (fun t ht => hx t (List.mem_cons_of_mem _ ht))
        (fun t ht => hy t (List.mem_cons_of_mem _ ht))
      rw [bytesCompare_cons]
      simp only [beValue]
      rw [← hlen2] at hvy ⊢
      generalize 256 ^ ds.length = N at hvx hvy ⊢
      generalize beValue ds = vx at hvx hrec ⊢
      generalize beValue es = vy at hvy hrec ⊢
      by_cases h1 : d < e
      · rw [if_pos h1]
        have hle : d * N + N ≤ e * N := by
          have hm := Nat.mul_le_mul_right N (Nat.succ_le_of_lt h1)
          rw [Nat.succ_mul] at hm
          exact hm
        exact ((Nat.compare_eq_lt).2 (by omega)).symm
      · rw [if_neg h1]
        by_cases h2 : e < d
        · rw [if_pos h2]
          have hle : e * N + N ≤ d * N := by
            have hm := Nat.mul_le_mul_right N (Nat.succ_le_of_lt h2)
            rw [Nat.succ_mul] at hm
            exact hm
          exact ((Nat.compare_eq_gt).2 (by omega)).symm
        · rw [if_neg h2, hrec]
          have hde : d = e := by omega
          subst hde
          rcases Nat.lt_trichotomy vx vy with h | h | h
          · rw [(Nat.compare_eq_lt).2 h, (Nat.compare_eq_lt).2 (by omega)]
          · rw [(Nat.compare_eq_eq).2 h, (Nat.compare_eq_eq).2 (by omega)]
          · rw [(Nat.compare_eq_gt).2 h, (Nat.compare_eq_gt).2 (by omega)]

theorem PutUint64_byte_lt (v : Nat) : ∀ d ∈ PutUint64 v, d < 256 := by
  intro d hd
  simp only [PutUint64, List.mem_cons, List.mem_singleton, List.not_mem_nil, or_false] at hd
  rcases hd with h | h | h | h | h | h | h | h <;> (subst h; exact Nat.mod_lt _ (by decide))

theorem PutUint64_length (v : Nat) : (PutUint64 v).length = 8 := rfl

theorem beValue_PutUint64 (v : Nat) (hv : v < 2 ^ 64) : beValue (PutUint64 v) = v := by
  simp only [beValue, PutUint64, List.length_cons, List.length_nil]
  norm_num
  omega

theorem bytesCompare_PutUint64 (a b : Nat) (ha : a < 2 ^ 64) (hb : b < 2 ^ 64) :
    bytesCompare (PutUint64 a) (PutUint64 b) = compare a b := by
  rw [bytesCompare_eq_compare_beValue (PutUint64 a) (PutUint64 b) rfl (PutUint64_byte_lt a)
    (PutUint64_byte_lt b), beValue_PutUint64 a ha, beValue_PutUint64 b hb]

theorem GetSettlementKey_eq (orderID : Nat) (account : GoString) (settlementID : Nat) :
    GetSettlementKey orderID account settlementID =
      account ++ ([124] ++ (PutUint64 orderID ++ PutUint64 settlementID)) := by
  show ((account ++ [124]) ++ PutUint64 orderID) ++ PutUint64 settlementID = _
  simp only [List.append_assoc]

theorem bytesCompare_ids (o1 s1 o2 s2 : Nat) (ho1 : o1 < 2 ^ 64) (hs1 : s1 < 2 ^ 64)
    (ho2 : o2 < 2 ^ 64) (hs2 : s2 < 2 ^ 64) :
    bytesCompare ([124] ++ (PutUint64 o1 ++ PutUint64 s1))
        ([124] ++ (PutUint64 o2 ++ PutUint64 s2)) = Ordering.lt ↔
      o1 < o2 ∨ (o1 = o2 ∧ s1 < s2) := by
  rw [bytesCompare_append_left,
    bytesCompare_append_of_length_eq (PutUint64 o1) (PutUint64 o2) _ _ rfl,
    bytesCompare_PutUint64 o1 o2 ho1 ho2, bytesCompare_PutUint64 s1 s2 hs1 hs2]
  rcases Nat.lt_trichotomy o1 o2 with h | h | h
  · rw [(Nat.compare_eq_lt).2 h]
    simp [Ordering.then, h]
  · rw [(Nat.compare_eq_eq).2 h]
    subst h
    simp [Ordering.then, Nat.compare_eq_lt]
  · rw [(Nat.compare_eq_gt).2 h]
    simp only [Ordering.then]
    constructor
    · intro hc; cases hc
    · rintro (h' | ⟨h', _⟩) <;> omega

/-- C9: for a fixed order ID and account, the settlement key of a smaller
settlement ID sorts before the key of a larger one and conversely; the key of
settlement ID 1 sorts before the key of settlement ID 256. -/
theorem GetSettlementKey_settlementID_order (orderID : Nat) (account : GoString) (s1 s2 : Nat)
    (hs1 : s1 < 2 ^ 64) (hs2 : s2 < 2 ^ 64) :
    (s1 < s2 ↔
      bytesLt (GetSettlementKey orderID account s1) (GetSettlementKey orderID account s2)) ∧
    bytesLt (GetSettlementKey orderID account 1) (GetSettlementKey orderID account 256) := by
  have key : ∀ t1 t2 : Nat, t1 < 2 ^ 64 → t2 < 2 ^ 64 →
      (t1 < t2 ↔ bytesLt (GetSettlementKey orderID account t1)
        (GetSettlementKey orderID account t2)) := by
    intro t1 t2 h1 h2
    unfold bytesLt
    rw [GetSettlementKey_eq, GetSettlementKey_eq]
    simp only [← List.append_assoc]
    rw [bytesCompare_append_left, bytesCompare_PutUint64 t1 t2 h1 h2]
    exact (Nat.compare_eq_lt).symm
  exact ⟨key s1 s2 hs1 hs2, (key 1 256 (by norm_num) (by norm_num)).1 (by norm_num)⟩

/-- Witness of C9: the settlement IDs 255 and 256 of order 5 of `acct1`. -/
theorem GetSettlementKey_settlementID_order_witness :
    ((255 : Nat) < 256 ↔
      bytesLt (GetSettlementKey 5 (strLit "acct1") 255) (GetSettlementKey 5 (strLit "acct1") 256)) ∧
    bytesLt (GetSettlementKey 5 (strLit "acct1") 1) (GetSettlementKey 5 (strLit "acct1") 256) :=
  GetSettlementKey_settlementID_order 5 (strLit "acct1") 255 256 (by norm_num) (by norm_num)

/-- C10, as the code has it: when neither account is a proper byte-prefix of the
other (as for accounts of equal length), settlement keys sort as the triples of
account bytes, order ID and settlement ID sort lexicographically. -/
theorem GetSettlementKey_order (a1 a2 : GoString) (o1 o2 s1 s2 : Nat)
    (h12 : a1 <+: a2 → a1 = a2) (h21 : a2 <+: a1 → a1 = a2)
    (ho1 : o1 < 2 ^ 64) (ho2 : o2 < 2 ^ 64) (hs1 : s1 < 2 ^ 64) (hs2 : s2 < 2 ^ 64) :
    bytesLt (GetSettlementKey o1 a1 s1) (GetSettlementKey o2 a2 s2) ↔
      bytesLt a1 a2 ∨ (a1 = a2 ∧ o1 < o2) ∨ (a1 = a2 ∧ o1 = o2 ∧ s1 < s2) := by
  unfold bytesLt
  rw [GetSettlementKey_eq, GetSettlementKey_eq]
  by_cases ha : a1 = a2
  · subst ha
    rw [bytesCompare_append_left, bytesCompare_ids o1 s1 o2 s2 ho1 hs1 ho2 hs2,
      bytesCompare_self]
    simp
  · rw [bytesCompare_append_of_incomparable a1 a2 _ _ (fun h => ha (h12 h)) (fun h => ha (h21 h))]
    simp [ha]

/-- Witness of C10: the accounts `acct1` and `acct2`. -/
theorem GetSettlementKey_order_witness :
    bytesLt (GetSettlementKey 7 (strLit "acct1") 3) (GetSettlementKey 2 (strLit "acct2") 1) ↔
      bytesLt (strLit "acct1") (strLit "acct2") ∨ (strLit "acct1" = strLit "acct2" ∧ 7 < 2) ∨
        (strLit "acct1" = strLit "acct2" ∧ 7 = 2 ∧ 3 < 1) :=
  GetSettlementKey_order (strLit "acct1") (strLit "acct2") 7 2 3 1
    (fun h => absurd h (by decide)) (fun h => absurd h (by decide))
    (by norm_num) (by norm_num) (by norm_num) (by norm_num)

/-- Counterexample to C10: the account `a` sorts before the account `ab`, and
the settlement key of `a` does not sort before the settlement key of `ab`,
because the separator `|` is larger than `b`. -/
theorem settlement_order_fails_for_prefix_account :
    ¬ (bytesLt (GetSettlementKey 0 (strLit "a") 0) (GetSettlementKey 0 (strLit "ab") 0) ↔
      bytesLt (strLit "a") (strLit "ab") ∨ (strLit "a" = strLit "ab" ∧ 0 < 0) ∨
        (strLit "a" = strLit "ab" ∧ 0 = 0 ∧ 0 < 0)) := by
  decide

/-! ### Settlement keys: scans and injectivity -/

theorem PutUint64_inj (a b : Nat) (ha : a < 2 ^ 64) (hb : b < 2 ^ 64)
    (h : PutUint64 a = PutUint64 b) : a = b := by
  rw [← beValue_PutUint64 a ha, ← beValue_PutUint64 b hb, h]

theorem GetSettlementOrderIDPrefix_eq (orderID : Nat) (account : GoString) :
    GetSettlementOrderIDPrefix orderID account = account ++ ([124] ++ PutUint64 orderID) := by
  show (account ++ [124]) ++ PutUint64 orderID = _
  simp only [List.append_assoc]

theorem separator_split (c : Nat) (a : Bytes) :
    ∀ (b x y : Bytes), c ∉ a → c ∉ b → (a ++ c :: x) <+: (b ++ c :: y) → a = b ∧ x <+: y := by
  induction a with
  | nil =>
    intro b x y _ hb h
    cases b with
    | nil => exact ⟨rfl, (List.cons_prefix_cons.1 h).2⟩
    | cons e es =>
      have he : c = e := (List.cons_prefix_cons.1 h).1
      exact absurd (he ▸ List.mem_cons_self _ _) hb
  | cons d ds ih =>
    intro b x y ha hb h
    cases b with
    | nil =>
      have hd : d = c := (List.cons_prefix_cons.1 h).1
      exact absurd (hd ▸ List.mem_cons_self _ _) ha
    | cons e es =>
      obtain ⟨hde, ht⟩ := List.cons_prefix_cons.1 h
      obtain ⟨hab, hxy⟩ := ih es x y (fun hm => ha (List.mem_cons_of_mem _ hm))
        (fun hm => hb (List.mem_cons_of_mem _ hm)) ht
      exact ⟨by rw [hde, hab], hxy⟩

/-- C11: for accounts that do not contain the byte `0x7C`, the prefix of an
account and an order ID is a byte-prefix of a settlement key exactly when the
key belongs to that account and that order ID. -/
theorem GetSettlementOrderIDPrefix_scan (a a' : GoString) (o o' s : Nat)
    (ha : 124 ∉ a) (ha' : 124 ∉ a') (ho : o < 2 ^ 64) (ho' : o' < 2 ^ 64) :
    GetSettlementOrderIDPrefix o a <+: GetSettlementKey o' a' s ↔ a = a' ∧ o = o' := by
  constructor
  · intro h
    rw [GetSettlementOrderIDPrefix_eq, GetSettlementKey_eq] at h
    obtain ⟨haa, hx⟩ := separator_split 124 a a' _ _ ha ha' h
    have h1 : PutUint64 o <+: PutUint64 o' :=
      List.prefix_of_prefix_length_le hx (List.prefix_append _ _) (by simp [PutUint64_length])
    have h2 : PutUint64 o = PutUint64 o' := h1.eq_of_length (by simp [PutUint64_length])
    exact ⟨haa, PutUint64_inj o o' ho ho' h2⟩
  · rintro ⟨rfl, rfl⟩
    exact List.prefix_append _ _

/-- Witness of C11: order 5 of `acct1`. -/
theorem GetSettlementOrderIDPrefix_scan_witness :
    GetSettlementOrderIDPrefix 5 (strLit "acct1") <+: GetSettlementKey 5 (strLit "acct1") 9 ↔
      strLit "acct1" = strLit "acct1" ∧ 5 = 5 :=
  GetSettlementOrderIDPrefix_scan (strLit "acct1") (strLit "acct1") 5 5 9 (by decide) (by decide)
    (by norm_num) (by norm_num)

/-- C17: for one account and order IDs `o1 < o2`, the prefix of `o1` sorts before
the prefix of `o2`, and every settlement key of `o1` sorts before every
settlement key of `o2`. -/
theorem GetSettlementKey_orderID_order (account : GoString) (o1 o2 s1 s2 : Nat)
    (h12 : o1 < o2) (ho2 : o2 < 2 ^ 64) :
    bytesLt (GetSettlementOrderIDPrefix o1 account) (GetSettlementOrderIDPrefix o2 account) ∧
    bytesLt (GetSettlementKey o1 account s1) (GetSettlementKey o2 account s2) := by
  have ho1 : o1 < 2 ^ 64 := Nat.lt_trans h12 ho2
  have hc : bytesCompare (PutUint64 o1) (PutUint64 o2) = Ordering.lt := by
    rw [bytesCompare_PutUint64 o1 o2 ho1 ho2]
    exact (Nat.compare_eq_lt).2 h12
  unfold bytesLt
  constructor
  · rw [GetSettlementOrderIDPrefix_eq, GetSettlementOrderIDPrefix_eq, bytesCompare_append_left,
      bytesCompare_append_left]
    exact hc
  · rw [GetSettlementKey_eq, GetSettlementKey_eq, bytesCompare_append_left,
      bytesCompare_append_left,
      bytesCompare_append_of_length_eq (PutUint64 o1) (PutUint64 o2) _ _ rfl, hc]
    rfl

/-- Witness of C17: the order IDs 255 and 256 of `acct1`. -/
theorem GetSettlementKey_orderID_order_witness :
    bytesLt (GetSettlementOrderIDPrefix 255 (strLit "acct1"))
      (GetSettlementOrderIDPrefix 256 (strLit "acct1")) ∧
    bytesLt (GetSettlementKey 255 (strLit "acct1") 9) (GetSettlementKey 256 (strLit "acct1") 0) :=
  GetSettlementKey_orderID_order (strLit "acct1") 255 256 9 0 (by norm_num) (by norm_num)

/-- C18: `GetSettlementKey` is injective for all accounts, also for accounts that
contain the separator byte. -/
theorem GetSettlementKey_injective (a1 a2 : GoString) (o1 o2 s1 s2 : Nat)
    (ho1 : o1 < 2 ^ 64) (ho2 : o2 < 2 ^ 64) (hs1 : s1 < 2 ^ 64) (hs2 : s2 < 2 ^ 64)
    (h : GetSettlementKey o1 a1 s1 = GetSettlementKey o2 a2 s2) :
    a1 = a2 ∧ o1 = o2 ∧ s1 = s2 := by
  rw [GetSettlementKey_eq, GetSettlementKey_eq] at h
  obtain ⟨ha, ht⟩ := List.append_inj' h (by simp [PutUint64_length])
  have ht2 : PutUint64 o1 ++ PutUint64 s1 = PutUint64 o2 ++ PutUint64 s2 :=
    List.append_cancel_left ht
  obtain ⟨hpo, hps⟩ := List.append_inj ht2 (by simp [PutUint64_length])
  exact ⟨ha, PutUint64_inj o1 o2 ho1 ho2 hpo, PutUint64_inj s1 s2 hs1 hs2 hps⟩

/-- Witness of C18: an account that contains the separator byte. -/
theorem GetSettlementKey_injective_witness :
    strLit "a|b" = strLit "a|b" ∧ 5 = 5 ∧ 9 = 9 :=
  GetSettlementKey_injective (strLit "a|b") (strLit "a|b") 5 5 9 9 (by norm_num) (by norm_num)
    (by norm_num) (by norm_num) (by decide)

/-- C19: on denominations of at most 65535 bytes, a pair key that is a
byte-prefix of another pair key belongs to the same pair. -/
theorem PairPrefix_prefix_free (p1 a1 p2 a2 : GoString) (hp1 : p1.length ≤ 65535)
    (ha1 : a1.length ≤ 65535) (hp2 : p2.length ≤ 65535) (ha2 : a2.length ≤ 65535)
    (h : PairPrefix p1 a1 <+: PairPrefix p2 a2) : p1 = p2 ∧ a1 = a2 := by
  obtain ⟨t, ht⟩ := h
  unfold PairPrefix ImmutableAppend at ht
  rw [List.append_assoc] at ht
  obtain ⟨hp, hrest⟩ := DenomPrefix_append_inj p1 p2 _ _ hp1 hp2 ht
  have hrest2 : DenomPrefix a1 ++ t = DenomPrefix a2 ++ [] := by
    rw [List.append_nil]
    exact hrest
  exact ⟨hp, (DenomPrefix_append_inj a1 a2 _ _ ha1 ha2 hrest2).1⟩

/-- Witness of C19: the pair of `usei` and `uatom`. -/
theorem PairPrefix_prefix_free_witness :
    strLit "usei" = strLit "usei" ∧ strLit "uatom" = strLit "uatom" :=
  PairPrefix_prefix_free (strLit "usei") (strLit "uatom") (strLit "usei") (strLit "uatom")
    (by decide) (by decide) (by decide) (by decide) (by decide)

/-! ### Address encoding -/

/-- C12, as the code has it: when the decoder returns an error, `AddressKeyPrefix`
drops it and returns the length prefix of the address value that came with the
error, `ContractKey` returns the same, and every other string for which the
decoder returns that address value has the same key. -/
theorem AddressKeyPrefix_drops_decode_error (lib : AddressLib) (contractAddr : GoString)
    (addr : Bytes) (herr : lib.AccAddressFromBech32 contractAddr = (addr, true)) :
    AddressKeyPrefix lib contractAddr = lib.MustLengthPrefix addr ∧
    ContractKey lib contractAddr = lib.MustLengthPrefix addr ∧
    ∀ (other : GoString) (flag : Bool), lib.AccAddressFromBech32 other = (addr, flag) →
      AddressKeyPrefix lib other = AddressKeyPrefix lib contractAddr ∧
      OrderPrefix lib other = OrderPrefix lib contractAddr := by
  have h1 : AddressKeyPrefix lib contractAddr = lib.MustLengthPrefix addr := by
    simp [AddressKeyPrefix, herr]
  refine ⟨h1, h1, ?_⟩
  intro other flag hother
  have h2 : AddressKeyPrefix lib other = lib.MustLengthPrefix addr := by
    simp [AddressKeyPrefix, hother]
  exact ⟨by rw [h1, h2], by simp only [OrderPrefix, h1, h2]⟩

/-- Witness of C12: a decoder that rejects the string `garbage`. -/
theorem AddressKeyPrefix_drops_decode_error_witness :
    AddressKeyPrefix rejectingLib (strLit "garbage") = rejectingLib.MustLengthPrefix [] ∧
    ContractKey rejectingLib (strLit "garbage") = rejectingLib.MustLengthPrefix [] ∧
    ∀ (other : GoString) (flag : Bool), rejectingLib.AccAddressFromBech32 other = ([], flag) →
      AddressKeyPrefix rejectingLib other = AddressKeyPrefix rejectingLib (strLit "garbage") ∧
      OrderPrefix rejectingLib other = OrderPrefix rejectingLib (strLit "garbage") :=
  AddressKeyPrefix_drops_decode_error rejectingLib (strLit "garbage") [] rfl

/-- Counterexample to C12: the decoder rejects `garbage` and `junk`, and for both
`AddressKeyPrefix` and `ContractKey` return the empty key, which is the encoding
of the address of length zero; `OrderPrefix` returns the bare tag for both. -/
theorem malformed_addresses_share_key :
    (rejectingLib.AccAddressFromBech32 (strLit "garbage")).2 = true ∧
    (rejectingLib.AccAddressFromBech32 (strLit "junk")).2 = true ∧
    strLit "garbage" ≠ strLit "junk" ∧
    AddressKeyPrefix rejectingLib (strLit "garbage") = some [] ∧
    AddressKeyPrefix rejectingLib (strLit "junk") = some [] ∧
    ContractKey rejectingLib (strLit "garbage") = sdkMustLengthPrefix [] ∧
    OrderPrefix rejectingLib (strLit "garbage") = some OrderKey ∧
    OrderPrefix rejectingLib (strLit "junk") = some OrderKey := by
  decide

/-! ### Composite keys -/

/-- C13: whenever the address of the contract is encoded, `OrderCountPrefix` for
the long side is `LongOrderCountKey` followed by the address encoding and the
two denomination encodings, for the short side it is the same behind
`ShortOrderCountKey`, and the two keys are different. -/
theorem OrderCountPrefix_layout (lib : AddressLib) (contractAddr priceDenom assetDenom : GoString)
    (ak : Bytes) (hak : AddressKeyPrefix lib contractAddr = some ak) :
    OrderCountPrefix lib contractAddr priceDenom assetDenom true =
      some (LongOrderCountKey ++ ak ++ DenomPrefix priceDenom ++ DenomPrefix assetDenom) ∧
    OrderCountPrefix lib contractAddr priceDenom assetDenom false =
      some (ShortOrderCountKey ++ ak ++ DenomPrefix priceDenom ++ DenomPrefix assetDenom) ∧
    OrderCountPrefix lib contractAddr priceDenom assetDenom true ≠
      OrderCountPrefix lib contractAddr priceDenom assetDenom false := by
  have hl : OrderCountPrefix lib contractAddr priceDenom assetDenom true =
      some (LongOrderCountKey ++ ak ++ DenomPrefix priceDenom ++ DenomPrefix assetDenom) := by
    simp [OrderCountPrefix, hak, ImmutableAppend, KeyPrefix, PairPrefix]
  have hs : OrderCountPrefix lib contractAddr priceDenom assetDenom false =
      some (ShortOrderCountKey ++ ak ++ DenomPrefix priceDenom ++ DenomPrefix assetDenom) := by
    simp [OrderCountPrefix, hak, ImmutableAppend, KeyPrefix, PairPrefix]
  refine ⟨hl, hs, ?_⟩
  rw [hl, hs]
  intro h
  have h2 := Option.some.inj h
  simp only [List.append_assoc] at h2
  have hpre : ¬ LongOrderCountKey <+: ShortOrderCountKey := by decide
  have hpre2 : ¬ ShortOrderCountKey <+: LongOrderCountKey := by decide
  exact not_prefix_of_tags _ _ _ _ hpre hpre2 ⟨[], by rw [List.append_nil]; exact h2⟩

/-- Witness of C13: the contract `c1` with the pair of `usei` and `uatom`. -/
theorem OrderCountPrefix_layout_witness :
    OrderCountPrefix rawLib (strLit "c1") (strLit "usei") (strLit "uatom") true =
      some (LongOrderCountKey ++ [2, 99, 49] ++ DenomPrefix (strLit "usei") ++
        DenomPrefix (strLit "uatom")) ∧
    OrderCountPrefix rawLib (strLit "c1") (strLit "usei") (strLit "uatom") false =
      some (ShortOrderCountKey ++ [2, 99, 49] ++ DenomPrefix (strLit "usei") ++
        DenomPrefix (strLit "uatom")) ∧
    OrderCountPrefix rawLib (strLit "c1") (strLit "usei") (strLit "uatom") true ≠
      OrderCountPrefix rawLib (strLit "c1") (strLit "usei") (strLit "uatom") false :=
  OrderCountPrefix_layout rawLib (strLit "c1") (strLit "usei") (strLit "uatom") [2, 99, 49]
    (by decide)

/-- C14: `GetSettlementOrderIDPrefix` is the account, the byte `0x7C` and the
eight bytes whose big-endian value is the order ID, `len(account) + 9` bytes in
all; `GetSettlementKey` is that followed by the eight bytes whose big-endian
value is the settlement ID; for order 5 of `acct1` the prefix is the ASCII bytes
of `acct1`, `0x7C` and seven zero bytes followed by `0x05`. -/
theorem GetSettlementOrderIDPrefix_layout (orderID : Nat) (account : GoString)
    (settlementID : Nat) (ho : orderID < 2 ^ 64) (hs : settlementID < 2 ^ 64) :
    GetSettlementOrderIDPrefix orderID account = account ++ [0x7C] ++ PutUint64 orderID ∧
    (GetSettlementOrderIDPrefix orderID account).length = account.length + 9 ∧
    GetSettlementKey orderID account settlementID =
      GetSettlementOrderIDPrefix orderID account ++ PutUint64 settlementID ∧
    ((PutUint64 orderID).length = 8 ∧ (∀ d ∈ PutUint64 orderID, d < 256) ∧
      beValue (PutUint64 orderID) = orderID) ∧
    ((PutUint64 settlementID).length = 8 ∧ (∀ d ∈ PutUint64 settlementID, d < 256) ∧
      beValue (PutUint64 settlementID) = settlementID) ∧
    GetSettlementOrderIDPrefix 5 (strLit "acct1") =
      strLit "acct1" ++ [0x7C] ++ [0x00, 0x00, 0x00, 0x00, 0x00, 0x00, 0x00, 0x05] := by
  refine ⟨rfl, ?_, rfl, ⟨rfl, PutUint64_byte_lt orderID, beValue_PutUint64 orderID ho⟩,
    ⟨rfl, PutUint64_byte_lt settlementID, beValue_PutUint64 settlementID hs⟩, by decide⟩
  rw [GetSettlementOrderIDPrefix_eq]
  simp [PutUint64_length]

/-- Witness of C14: settlement 256 of order 5 of `acct1`. -/
theorem GetSettlementOrderIDPrefix_layout_witness :
    GetSettlementOrderIDPrefix 5 (strLit "acct1") = strLit "acct1" ++ [0x7C] ++ PutUint64 5 ∧
    (GetSettlementOrderIDPrefix 5 (strLit "acct1")).length = (strLit "acct1").length + 9 ∧
    GetSettlementKey 5 (strLit "acct1") 256 =
      GetSettlementOrderIDPrefix 5 (strLit "acct1") ++ PutUint64 256 ∧
    ((PutUint64 5).length = 8 ∧ (∀ d ∈ PutUint64 5, d < 256) ∧ beValue (PutUint64 5) = 5) ∧
    ((PutUint64 256).length = 8 ∧ (∀ d ∈ PutUint64 256, d < 256) ∧
      beValue (PutUint64 256) = 256) ∧
    GetSettlementOrderIDPrefix 5 (strLit "acct1") =
      strLit "acct1" ++ [0x7C] ++ [0x00, 0x00, 0x00, 0x00, 0x00, 0x00, 0x00, 0x05] :=
  GetSettlementOrderIDPrefix_layout 5 (strLit "acct1") 256 (by norm_num) (by norm_num)

/-- C16: two calls of builders that lead with different registry tags return
different keys, and neither key is a byte-prefix of the other, whatever the
address decoder and the length prefix do. -/
theorem tagged_keys_differ (lib : AddressLib) (b1 b2 : TaggedCall) (k1 k2 : Bytes)
    (htag : b1.tag ≠ b2.tag) (h1 : b1.key lib = some k1) (h2 : b2.key lib = some k2) :
    k1 ≠ k2 ∧ ¬ k1 <+: k2 ∧ ¬ k2 <+: k1 := by
  obtain ⟨r1, hr1⟩ := TaggedCall.key_eq_tag_append lib b1 k1 h1
  obtain ⟨r2, hr2⟩ := TaggedCall.key_eq_tag_append lib b2 k2 h2
  have h12 := tagRegistry_no_leading_tag _ b1.tag_mem _ b2.tag_mem htag
  have h21 := tagRegistry_no_leading_tag _ b2.tag_mem _ b1.tag_mem (Ne.symm htag)
  have hp : ¬ k1 <+: k2 := by
    rw [hr1, hr2]
    exact not_prefix_of_tags _ _ _ _ h12 h21
  have hq : ¬ k2 <+: k1 := by
    rw [hr1, hr2]
    exact not_prefix_of_tags _ _ _ _ h21 h12
  refine ⟨fun he => hp ?_, hp, hq⟩
  rw [he]

/-- Witness of C16: `OrderCountPrefix` for the long side and `MemDepositPrefix`, at
the contract `c1`. -/
theorem tagged_keys_differ_witness :
    (strLit "loc-" ++ [2, 99, 49] ++ PairPrefix (strLit "usei") (strLit "uatom")) ≠
      (strLit "MemDeposit-" ++ [2, 99, 49]) ∧
    ¬ (strLit "loc-" ++ [2, 99, 49] ++ PairPrefix (strLit "usei") (strLit "uatom")) <+:
      (strLit "MemDeposit-" ++ [2, 99, 49]) ∧
    ¬ (strLit "MemDeposit-" ++ [2, 99, 49]) <+:
      (strLit "loc-" ++ [2, 99, 49] ++ PairPrefix (strLit "usei") (strLit "uatom")) :=
  tagged_keys_differ rawLib
    (TaggedCall.orderCountPrefix (strLit "c1") (strLit "usei") (strLit "uatom") true)
    (TaggedCall.memDepositPrefix (strLit "c1")) _ _ (by decide) (by decide) (by decide)

/-- C20: whenever the address of the contract is encoded, each contract-level
key is a byte-prefix of the pair-level key of the same domain, and what follows
it there is exactly the pair encoding. -/
theorem contract_key_covers_pair_key (lib : AddressLib) (long : Bool)
    (contractAddr priceDenom assetDenom : GoString) (ak : Bytes)
    (hak : AddressKeyPrefix lib contractAddr = some ak) :
    (∃ kc kp, OrderBookContractPrefix lib long contractAddr = some kc ∧
      OrderBookPrefix lib long contractAddr priceDenom assetDenom = some kp ∧
      kc <+: kp ∧ kp = kc ++ PairPrefix priceDenom assetDenom) ∧
    (∃ kc kp, PriceContractPrefix lib contractAddr = some kc ∧
      PricePrefix lib contractAddr priceDenom assetDenom = some kp ∧
      kc <+: kp ∧ kp = kc ++ PairPrefix priceDenom assetDenom) ∧
    (∃ kc kp, MemOrderPrefix lib contractAddr = some kc ∧
      MemOrderPrefixForPair lib contractAddr priceDenom assetDenom = some kp ∧
      kc <+: kp ∧ kp = kc ++ PairPrefix priceDenom assetDenom) ∧
    (∃ kc kp, MemCancelPrefix lib contractAddr = some kc ∧
      MemCancelPrefixForPair lib contractAddr priceDenom assetDenom = some kp ∧
      kc <+: kp ∧ kp = kc ++ PairPrefix priceDenom assetDenom) := by
  refine ⟨⟨(if long then LongBookKey else ShortBookKey) ++ ak, _, ?_, ?_,
      List.prefix_append _ (PairPrefix priceDenom assetDenom), rfl⟩,
    ⟨PriceKey ++ ak, _, ?_, ?_, List.prefix_append _ (PairPrefix priceDenom assetDenom), rfl⟩,
    ⟨MemOrderKey ++ ak, _, ?_, ?_, List.prefix_append _ (PairPrefix priceDenom assetDenom), rfl⟩,
    ⟨MemCancelKey ++ ak, _, ?_, ?_, List.prefix_append _ (PairPrefix priceDenom assetDenom), rfl⟩⟩
  · cases long <;> simp [OrderBookContractPrefix, hak, ImmutableAppend, KeyPrefix]
  · cases long <;>
      simp [OrderBookPrefix, OrderBookContractPrefix, hak, ImmutableAppend, KeyPrefix]
  · simp [PriceContractPrefix, hak, ImmutableAppend, KeyPrefix]
  · simp [PricePrefix, PriceContractPrefix, hak, ImmutableAppend, KeyPrefix]
  · simp [MemOrderPrefix, hak, ImmutableAppend, KeyPrefix]
  · simp [MemOrderPrefixForPair, hak, ImmutableAppend, KeyPrefix]
  · simp [MemCancelPrefix, hak, ImmutableAppend, KeyPrefix]
  · simp [MemCancelPrefixForPair, hak, ImmutableAppend, KeyPrefix]

/-- Witness of C20: the long side of the contract `c1` with the pair of `usei` and
`uatom`. -/
theorem contract_key_covers_pair_key_witness :
    (∃ kc kp, OrderBookContractPrefix rawLib true (strLit "c1") = some kc ∧
      OrderBookPrefix rawLib true (strLit "c1") (strLit "usei") (strLit "uatom") = some kp ∧
      kc <+: kp ∧ kp = kc ++ PairPrefix (strLit "usei") (strLit "uatom")) ∧
    (∃ kc kp, PriceContractPrefix rawLib (strLit "c1") = some kc ∧
      PricePrefix rawLib (strLit "c1") (strLit "usei") (strLit "uatom") = some kp ∧
      kc <+: kp ∧ kp = kc ++ PairPrefix (strLit "usei") (strLit "uatom")) ∧
    (∃ kc kp, MemOrderPrefix rawLib (strLit "c1") = some kc ∧
      MemOrderPrefixForPair rawLib (strLit "c1") (strLit "usei") (strLit "uatom") = some kp ∧
      kc <+: kp ∧ kp = kc ++ PairPrefix (strLit "usei") (strLit "uatom")) ∧
    (∃ kc kp, MemCancelPrefix rawLib (strLit "c1") = some kc ∧
      MemCancelPrefixForPair rawLib (strLit "c1") (strLit "usei") (strLit "uatom") = some kp ∧
      kc <+: kp ∧ kp = kc ++ PairPrefix (strLit "usei") (strLit "uatom")) :=
  contract_key_covers_pair_key rawLib true (strLit "c1") (strLit "usei") (strLit "uatom")
    [2, 99, 49] (by decide)

/-! ### The concatenation primitive over backing arrays -/

theorem Concat_read_old (h : Heap) (base suffix s : Slice) (hs : s.valid h) :
    s.read (Concat h base suffix).1 = s.read h := by
  unfold Slice.valid at hs
  simp only [Concat, Slice.read]
  rw [List.getD_append _ _ _ _ hs]

theorem Concat_read_new (h : Heap) (base suffix : Slice) :
    (Concat h base suffix).2.read (Concat h base suffix).1 =
      ImmutableAppend (base.read h) (suffix.read h) := by
  simp only [Concat, Slice.read, ImmutableAppend]
  rw [List.getD_append_right _ _ _ _ (Nat.le_refl _)]
  simp

theorem Concat_valid_old (h : Heap) (base suffix s : Slice) (hs : s.valid h) :
    s.valid (Concat h base suffix).1 := by
  unfold Slice.valid at hs ⊢
  simp only [Concat, List.length_append, List.length_singleton]
  omega

theorem Concat_valid_new (h : Heap) (base suffix : Slice) :
    (Concat h base suffix).2.valid (Concat h base suffix).1 := by
  unfold Slice.valid
  simp [Concat]

/-- C15: after `Concat(b, x)` and then `Concat(b, y)` on allocated buffers, the
first result still holds the bytes of `b` followed by the bytes of `x`, exactly
what it held before the second call, the second result holds the bytes of `b`
followed by the bytes of `y`, and `b`, `x` and `y` hold what they held at the
start, whatever spare capacity `b` has. -/
theorem Concat_non_destructive (h : Heap) (b x y : Slice) (hb : b.valid h) (hx : x.valid h)
    (hy : y.valid h) :
    (Concat h b x).2.read (Concat (Concat h b x).1 b y).1 =
      (Concat h b x).2.read (Concat h b x).1 ∧
    (Concat h b x).2.read (Concat (Concat h b x).1 b y).1 = b.read h ++ x.read h ∧
    (Concat (Concat h b x).1 b y).2.read (Concat (Concat h b x).1 b y).1 =
      b.read h ++ y.read h ∧
    b.read (Concat (Concat h b x).1 b y).1 = b.read h ∧
    x.read (Concat (Concat h b x).1 b y).1 = x.read h ∧
    y.read (Concat (Concat h b x).1 b y).1 = y.read h := by
  have hb1 := Concat_valid_old h b x b hb
  have hx1 := Concat_valid_old h b x x hx
  have hy1 := Concat_valid_old h b x y hy
  have hr1 := Concat_valid_new h b x
  have hkeep := Concat_read_old (Concat h b x).1 b y (Concat h b x).2 hr1
  refine ⟨hkeep, ?_, ?_, ?_, ?_, ?_⟩
  · rw [hkeep, Concat_read_new]
    rfl
  · rw [Concat_read_new, Concat_read_old h b x b hb, Concat_read_old h b x y hy]
    rfl
  · rw [Concat_read_old _ b y b hb1, Concat_read_old h b x b hb]
  · rw [Concat_read_old _ b y x hx1, Concat_read_old h b x x hx]
  · rw [Concat_read_old _ b y y hy1, Concat_read_old h b x y hy]

/-- Witness of C15: a base of two bytes in a backing array of four, so with a
spare capacity of two, and two suffixes of one byte each. -/
theorem Concat_non_destructive_witness :
    (Concat sampleHeap sampleBase sampleX).2.read
        (Concat (Concat sampleHeap sampleBase sampleX).1 sampleBase sampleY).1 =
      (Concat sampleHeap sampleBase sampleX).2.read (Concat sampleHeap sampleBase sampleX).1 ∧
    (Concat sampleHeap sampleBase sampleX).2.read
        (Concat (Concat sampleHeap sampleBase sampleX).1 sampleBase sampleY).1 =
      sampleBase.read sampleHeap ++ sampleX.read sampleHeap ∧
    (Concat (Concat sampleHeap sampleBase sampleX).1 sampleBase sampleY).2.read
        (Concat (Concat sampleHeap sampleBase sampleX).1 sampleBase sampleY).1 =
      sampleBase.read sampleHeap ++ sampleY.read sampleHeap ∧
    sampleBase.read (Concat (Concat sampleHeap sampleBase sampleX).1 sampleBase sampleY).1 =
      sampleBase.read sampleHeap ∧
    sampleX.read (Concat (Concat sampleHeap sampleBase sampleX).1 sampleBase sampleY).1 =
      sampleX.read sampleHeap ∧
    sampleY.read (Concat (Concat sampleHeap sampleBase sampleX).1 sampleBase sampleY).1 =
      sampleY.read sampleHeap :=
  Concat_non_destructive sampleHeap sampleBase sampleX sampleY (by decide) (by decide)
    (by decide)

end Dex
